import Mathlib

/-!
Shallow embedding of `ilastik/clusterOps.py` (the cluster scheduling core:
`OpTaskWorker.execute`, `OpClusterize._getRoiList`, `_prepareTaskInfos`,
`execute`, `_copyFinishedResults`, `_checkForFailures`) together with proofs
of the specification's testable properties.

Conventions of the embedding:
* Python exceptions are modelled by `Except PyErr`.
* Python 2 integer `/` (floor division) is `Int.fdiv`; `range(0, stop, step)`
  is `pyRange`, including the `ValueError` raised on `step == 0`.
* `int(round(math.pow(J, 1.0/S)))` is modelled in exact real arithmetic by
  `roundRoot` (nearest integer to the real S-th root of J); the `1.0/0`
  `ZeroDivisionError` for `S = 0` and the `ValueError` of `math.pow` on a
  negative base with fractional exponent are modelled in `numJobsPerSpaceDim`.
* Filesystem state is passed explicitly (`FsView`), and side effects (file
  deletion, process spawning, dataset writes) are returned as explicit lists
  of events.
-/

namespace ClusterOps

/-- Python exceptions that the modelled code can raise. -/
inductive PyErr where
  | zeroDivisionError
  | valueError
  | assertionError
  | runtimeError
deriving DecidableEq

/-- One entry of `Input.meta.getTaggedShape()`: an axis label paired with its
extent.  `getTaggedShape` returns an ordered dict, modelled as a list. -/
structure Axis where
  key : Char
  dim : ℕ
deriving DecidableEq

/-- The filter `lambda (key, dim): key in 'xyz' and dim > 1` used to build
`spaceDims` in `_getRoiList`. -/
def isSplittable (a : Axis) : Bool :=
  (a.key = 'x' || a.key = 'y' || a.key = 'z') && decide (1 < a.dim)

/-- `spaceDims = filter(lambda (key, dim): key in 'xyz' and dim > 1, taggedShape.items())`. -/
def spaceDims (shape : List Axis) : List Axis :=
  shape.filter isSplittable

/-- `[key for key, value in spaceDims]`: the keys of the splittable axes. -/
def splitKeys (shape : List Axis) : List Char :=
  (spaceDims shape).map Axis.key

/-- Largest `n` with `n ^ S ≤ J` (the floor of the real S-th root of `J`,
for `S ≥ 1`). -/
def floorRoot (J S : ℕ) : ℕ :=
  ((List.range (J + 2)).filter (fun n => n ^ S ≤ J)).foldr max 0

/-- Exact-arithmetic model of `int(round(math.pow(J, 1.0/S)))` for `J, S ≥ 0`:
the integer nearest to the real S-th root of `J` (for `S ≥ 1` a tie is
impossible since `(2n+1)^S` is odd while `2^S * J` is even). -/
def roundRoot (J S : ℕ) : ℕ :=
  let n := floorRoot J S
  if 2 ^ S * J < (2 * n + 1) ^ S then n else n + 1

/-- `numJobsPerSpaceDim = int(round(math.pow(numJobs, 1.0/len(spaceDims))))`:
`S = 0` raises `ZeroDivisionError` (from `1.0/len(spaceDims)`); a negative
job count with a genuinely fractional exponent raises `ValueError` in
`math.pow`; a negative base with exponent `1.0` (i.e. `S = 1`) passes through
unchanged. -/
def numJobsPerSpaceDim (numJobs : ℤ) (S : ℕ) : Except PyErr ℤ :=
  if S = 0 then .error .zeroDivisionError
  else if 0 ≤ numJobs then .ok (roundRoot numJobs.toNat S)
  else if S = 1 then .ok numJobs
  else .error .valueError

/-- The `roiShape` loop of `_getRoiList`: for each axis, `dim / numJobsPerSpaceDim`
(Python 2 floor division, raising `ZeroDivisionError` on a zero divisor) when
the axis key is among the splittable keys, else the full extent. -/
def mkRoiShape (shape : List Axis) (k : ℤ) : Except PyErr (List ℤ) :=
  shape.mapM (fun a =>
    if a.key ∈ splitKeys shape then
      if k = 0 then .error .zeroDivisionError else .ok (Int.fdiv (a.dim : ℤ) k)
    else .ok ((a.dim : ℤ)))

/-- The number of elements of Python's `range(0, stop, step)` (for `step ≠ 0`). -/
def pyRangeLen (stop step : ℤ) : ℕ :=
  if 0 < step then (max 0 ((stop + step - 1).fdiv step)).toNat
  else (max 0 ((stop + step + 1).fdiv step)).toNat

/-- The elements of Python's `range(0, stop, step)` for `step ≠ 0`. -/
def axisStarts (stop step : ℤ) : List ℤ :=
  (List.range (pyRangeLen stop step)).map (fun (i : ℕ) => (i : ℤ) * step)

/-- Python's `range(0, stop, step)`: `ValueError` when `step = 0`. -/
def pyRange (stop step : ℤ) : Except PyErr (List ℤ) :=
  if step = 0 then .error .valueError
  else .ok (axisStarts stop step)

/-- A region of interest: `(start, stop)` coordinate lists, as built by
`_getRoiList`. -/
abbrev Roi := List ℤ × List ℤ

/-- Decidable equality for `Except` results, so that concrete runs of the
embedded code can be checked by `decide`. -/
instance exceptDecEq {ε α : Type} [DecidableEq ε] [DecidableEq α] :
    DecidableEq (Except ε α) := fun a b =>
  match a, b with
  | .error e, .error f =>
      if h : e = f then .isTrue (by rw [h])
      else .isFalse (by intro hc; cases hc; exact h rfl)
  | .ok x, .ok y =>
      if h : x = y then .isTrue (by rw [h])
      else .isFalse (by intro hc; cases hc; exact h rfl)
  | .error _, .ok _ => .isFalse (by intro hc; cases hc)
  | .ok _, .error _ => .isFalse (by intro hc; cases hc)

/-- `itertools.product` over a list of coordinate lists (rightmost factor
varies fastest, as in the source's `itertools.product(*[...])`). -/
def cartProd : List (List ℤ) → List (List ℤ)
  | [] => [[]]
  | l :: ls => l.flatMap (fun x => (cartProd ls).map (fun t => x :: t))

/-- `OpClusterize._getRoiList` (clusterOps.py lines 187-213). -/
def getRoiList (shape : List Axis) (numJobs : ℤ) : Except PyErr (List Roi) :=
  let inputShape := shape.map (fun a => (a.dim : ℤ))
  match numJobsPerSpaceDim numJobs (spaceDims shape).length with
  | .error e => .error e
  | .ok k =>
    match mkRoiShape shape k with
    | .error e => .error e
    | .ok roiShape =>
      match (inputShape.zip roiShape).mapM (fun p => pyRange p.1 p.2) with
      | .error e => .error e
      | .ok ranges =>
        .ok ((cartProd ranges).map (fun start =>
          (start, List.zipWith min (List.zipWith (· + ·) start roiShape) inputShape)))

/-- Membership of a point in the half-open box `[start, stop)` (all three
lists must have equal length). -/
def inBox : List ℤ → List ℤ → List ℤ → Prop
  | [], [], [] => True
  | a :: sa, b :: sb, x :: xs => (a ≤ x ∧ x < b) ∧ inBox sa sb xs
  | _, _, _ => False

/-! ### File naming (`STATUS_FILE_NAME_FORMAT`, `OUTPUT_FILE_NAME_FORMAT`, `os.path.join`) -/

/-- `os.path.join(dir, name)`. -/
def pathJoin (dir name : List Char) : List Char :=
  dir ++ '/' :: name

/-- Model of Python's `str(roituple)` for the `(start, stop)` tuple pair. -/
def roiStr (roi : Roi) : List Char :=
  ("(" ++ toString roi.1 ++ ", " ++ toString roi.2 ++ ")").toList

/-- Model of `lazyflow`'s `Roi.dumps(subregion)`: a self-describing string
encoding of the region (external collaborator, modelled as `roiStr`). -/
def roiDumps (roi : Roi) : List Char :=
  roiStr roi

/-- `STATUS_FILE_NAME_FORMAT.format(taskName, str(roituple))`, i.e. the
format string `"... status ....txt"`. -/
def statusFileName (taskName : List Char) (roi : Roi) : List Char :=
  taskName ++ " status ".toList ++ roiStr roi ++ ".txt".toList

/-- `OUTPUT_FILE_NAME_FORMAT.format(taskName, str(roituple))`, i.e. the
format string `"... output ....h5"`. -/
def outputFileName (taskName : List Char) (roi : Roi) : List Char :=
  taskName ++ " output ".toList ++ roiStr roi ++ ".h5".toList

/-! ### `OpTaskWorker.execute` (clusterOps.py lines 56-106)

The worker's externally visible behaviour is the ordered sequence of
filesystem effects it performs; the embedding returns that event trace
together with the boolean written into `result[0]`. -/

/-- Filesystem effects performed by `OpTaskWorker.execute`, in program
order. -/
inductive WorkerEvent where
  /-- `tempfile.mkdtemp()` -/
  | mkTempDir (dir : List Char)
  /-- writing the h5 result into the private temporary file
  (`opH5Writer.WriteImage.value` inside `with h5py.File(tmpOutputFile, 'w')`) -/
  | writeTempResult (path : List Char)
  /-- `shutil.copyfile(tmpOutputFile, outputFilePath)` -/
  | copyFile (src dst : List Char)
  /-- `file(statusFilePath, 'w'); statusFile.write('Yay!')` -/
  | writeStatusFile (path : List Char)
deriving DecidableEq

/-- `OpTaskWorker.execute`: computes into a fresh temp file, copies the
finished file to the scratch area, then creates the status file.
`tempDir` is the directory returned by `tempfile.mkdtemp()` and `writeOk`
the value of `opH5Writer.WriteImage.value` stored into `result[0]`. -/
def opTaskWorkerExecute (scratchDir taskName tempDir : List Char) (roi : Roi)
    (writeOk : Bool) : List WorkerEvent × Bool :=
  let statusFilePath := pathJoin scratchDir (statusFileName taskName roi)
  let outputFilePath := pathJoin scratchDir (outputFileName taskName roi)
  let tmpOutputFile := pathJoin tempDir (roiDumps roi ++ ".h5".toList)
  ([.mkTempDir tempDir,
    .writeTempResult tmpOutputFile,
    .copyFile tmpOutputFile outputFilePath,
    .writeStatusFile statusFilePath], writeOk)

/-! ### `OpClusterize._prepareTaskInfos` (clusterOps.py lines 215-263) -/

/-- The input slots of `OpClusterize` relevant to task preparation, plus the
set of files present in the scratch directory when the run starts
(`os.path.exists` at preparation time). -/
structure ClusterConfig where
  shape : List Axis
  numJobs : ℤ
  commandFormat : List Char
  workflowTypeName : List Char
  projectFilePath : List Char
  scratchDirectory : List Char
  /-- `tempfile.tempdir` override, if any -/
  tempdirOverride : Option (List Char)
  /-- which paths exist on disk before the run (stale files) -/
  staleFile : List Char → Bool

/-- One `OpClusterize.TaskInfo`.  The `command` field of the source is
`commandFormat.format(args=allArgs, task_name=taskName)`; the embedding keeps
the format call's inputs (`commandArgs`, `taskName`) rather than performing
textual substitution, since no claim inspects the substituted text. -/
structure TaskInfoM where
  taskName : List Char
  commandArgs : List (List Char)
  statusFilePath : List Char
  outputFilePath : List Char
  subregion : Roi
deriving DecidableEq

/-- Does `commandFormat.find("\x7bargs\x7d") != -1` hold, i.e. is the
required placeholder a substring of the command format? -/
def hasArgsPlaceholder : List Char → Bool
  | [] => "{args}".toList.isPrefixOf []
  | c :: rest => "{args}".toList.isPrefixOf (c :: rest) || hasArgsPlaceholder rest

/-- The `commandArgs` list built for one task (clusterOps.py lines 236-245). -/
def mkCommandArgs (cfg : ClusterConfig) (taskName : List Char) (roi : Roi) :
    List (List Char) :=
  ["--workflow_type=".toList ++ cfg.workflowTypeName,
   "--project=".toList ++ cfg.projectFilePath,
   "--scratch_directory=".toList ++ cfg.scratchDirectory,
   "--_node_work_=\"".toList ++ roiDumps roi ++ "\"".toList,
   "--process_name=".toList ++ taskName]
  ++ (match cfg.tempdirOverride with
      | none => []
      | some d => ["--sys_tmp_dir=".toList ++ d])

/-- The per-roi loop of `_prepareTaskInfos`.  Returns the task map (an
association list in roi order, the model of the Python dict) together with
the list of stale files deleted so far; the `assert commandFormat.find(...)`
fires inside the loop body *before* that iteration's deletions. -/
def prepLoop (cfg : ClusterConfig) : ℕ → List Roi →
    Except PyErr (List (Roi × TaskInfoM)) × List (List Char)
  | _, [] => (.ok [], [])
  | roiIndex, roi :: rest =>
    let taskName := "TASK_".toList ++ (toString roiIndex).toList
    let statusFilePath := pathJoin cfg.scratchDirectory (statusFileName taskName roi)
    let outputFilePath := pathJoin cfg.scratchDirectory (outputFileName taskName roi)
    if hasArgsPlaceholder cfg.commandFormat = false then (.error .assertionError, [])
    else
      let taskInfo : TaskInfoM :=
        { taskName := taskName
          commandArgs := mkCommandArgs cfg taskName roi
          statusFilePath := statusFilePath
          outputFilePath := outputFilePath
          subregion := roi }
      let dels :=
        (if cfg.staleFile statusFilePath then [statusFilePath] else []) ++
        (if cfg.staleFile outputFilePath then [outputFilePath] else [])
      match prepLoop cfg (roiIndex + 1) rest with
      | (res, dels') =>
        (res.map (fun l => (roi, taskInfo) :: l), dels ++ dels')

/-- `OpClusterize._prepareTaskInfos`: partition, then build one `TaskInfo`
per roi (deleting stale status/output files as it goes).  The second
component is the ordered list of files deleted before returning or raising. -/
def prepareTaskInfos (cfg : ClusterConfig) :
    Except PyErr (List (Roi × TaskInfoM)) × List (List Char) :=
  match getRoiList cfg.shape cfg.numJobs with
  | .error e => (.error e, [])
  | .ok rois => prepLoop cfg 0 rois

/-- The external processes spawned by `OpClusterize.execute` (lines 141-146):
one per prepared task, none when `_prepareTaskInfos` raises. -/
def executeSpawns (cfg : ClusterConfig) : List (List (List Char)) :=
  match (prepareTaskInfos cfg).1 with
  | .error _ => []
  | .ok taskInfos => taskInfos.map (fun p => p.2.commandArgs)

/-! ### `OpClusterize._copyFinishedResults` (lines 265-317) and the polling
loop of `OpClusterize.execute` (lines 148-185) -/

/-- The metadata of `OpClusterize.Input` consulted by validation: element
type and axis tags (both modelled as abstract tokens). -/
structure InputMeta where
  dtype : ℕ
  axistags : List Char
deriving DecidableEq

/-- The `node_result` dataset found in one task's output file: its shape,
element type and `axistags` attribute. -/
structure NodeResult where
  shape : List ℤ
  dtype : ℕ
  axistags : List Char
deriving DecidableEq

/-- An output h5 file: may or may not contain a `node_result` dataset. -/
structure OutputFile where
  nodeResult : Option NodeResult
deriving DecidableEq

/-- What the coordinator can observe about one task's files at some instant:
whether the status file exists, and the output file's content if it exists. -/
structure FsView where
  statusExists : Bool
  outputFile : Option OutputFile
deriving DecidableEq

/-- The three `assert` checks of lines 283-285: result shape equals
`numpy.subtract(roi[1], roi[0])`, result dtype equals the input's, and the
`axistags` attribute equals the input's. -/
def validResult (meta : InputMeta) (roi : Roi) (r : NodeResult) : Bool :=
  (r.shape = List.zipWith (· - ·) roi.2 roi.1) &&
  (r.dtype = meta.dtype) && (r.axistags = meta.axistags)

/-- `OpClusterize._copyFinishedResults` over the active roi list (Python
iterates `taskInfos.items()`; the per-roi file paths are abstracted into the
`fs` view).  First component: the returned `finished_rois` list, or the
exception raised (`RuntimeError` for a missing output file, the failed
`assert`s otherwise).  Second component: the rois actually written into the
`cluster_result` dataset before returning or raising. -/
def copyFinishedResults (meta : InputMeta) (fs : Roi → FsView) :
    List Roi → Except PyErr (List Roi) × List Roi
  | [] => (.ok [], [])
  | roi :: rest =>
    if (fs roi).statusExists = false then copyFinishedResults meta fs rest
    else
      match (fs roi).outputFile with
      | none => (.error .runtimeError, [])
      | some f =>
        match f.nodeResult with
        | none => (.error .assertionError, [])
        | some r =>
          if validResult meta roi r then
            match copyFinishedResults meta fs rest with
            | (res, writes) => (res.map (fun l => roi :: l), roi :: writes)
          else (.error .assertionError, [])

/-- `OpClusterize._checkForFailures` (lines 319-320): the stub that never
reports a failure. -/
def checkForFailures (_taskInfos : List Roi) : List Roi :=
  []

/-- `Timer.seconds` (clusterOps.py lines 34-39) with the timer still
running: `(datetime.datetime.now() - self.startTime).seconds` is the
`timedelta`'s seconds *component* — the true elapsed wall-clock seconds
modulo 86400, the days component being discarded (the source uses
`.seconds`, not `.total_seconds()`). -/
def timerSeconds (elapsedWallClock : ℕ) : ℕ :=
  elapsedWallClock % 86400

/-- The observable state of `OpClusterize.execute` when its polling loop
exits normally: the `success` flag it will store into `result[0]`, the rois
still in the `taskInfos` dict, and the index of the timeout check at which
the loop exited (= the number of completed polling passes). -/
structure LoopExit where
  success : Bool
  remaining : List Roi
  checkIndex : ℕ
deriving DecidableEq

/-- One run of the polling loop of `OpClusterize.execute` (lines 148-185),
from check index `n` with active roi set `taskInfos` and current `success`
flag.  `env n` is the filesystem view during polling pass `n`; `elapsed n`
is the true wall-clock seconds elapsed since the timer started at the `n`-th
evaluation of the timeout test, so `totalTimer.seconds()` there reads
`timerSeconds (elapsed n)`.  Returns `none` when `fuel` runs out, otherwise
the raised exception or the normal exit state. -/
def executeLoop (meta : InputMeta) (env : ℕ → Roi → FsView) (timeOut : ℕ)
    (elapsed : ℕ → ℕ) :
    ℕ → ℕ → List Roi → Bool → Option (Except PyErr LoopExit)
  | 0, _, _, _ => none
  | fuel + 1, n, taskInfos, success =>
    if taskInfos = [] then some (.ok ⟨success, [], n⟩)
    else if timeOut ≤ timerSeconds (elapsed n) then some (.ok ⟨false, taskInfos, n⟩)
    else
      match copyFinishedResults meta (env n) taskInfos with
      | (.error e, _) => some (.error e)
      | (.ok finished, _) =>
        let remaining := taskInfos.filter (fun r => !(decide (r ∈ finished)))
        let failed := checkForFailures remaining
        let success' := if failed = [] then success else false
        let remaining' := remaining.filter (fun r => !(decide (r ∈ failed)))
        executeLoop meta env timeOut elapsed fuel (n + 1) remaining' success'

/-! ### Derived views used by the proofs -/


def gridStarts (pairs : List (ℤ × ℤ)) : List (List ℤ) :=
  cartProd (pairs.map (fun p => axisStarts p.1 p.2))

def gridStop (pairs : List (ℤ × ℤ)) (start : List ℤ) : List ℤ :=
  List.zipWith min (List.zipWith (· + ·) start (pairs.map Prod.snd)) (pairs.map Prod.fst)


/-- The 8 regions produced for Scenario A (shape x:100, y:100, z:30, 8 jobs),
in the order `itertools.product` emits them. -/
def scenarioARois : List Roi :=
  [([0,0,0],[50,50,15]), ([0,0,15],[50,50,30]),
   ([0,50,0],[50,100,15]), ([0,50,15],[50,100,30]),
   ([50,0,0],[100,50,15]), ([50,0,15],[100,50,30]),
   ([50,50,0],[100,100,15]), ([50,50,15],[100,100,30])]
/-! ### Supporting lemmas -/


lemma pyRangeLen_cast (d s : ℤ) (hd : 1 ≤ d) (hs : 0 < s) :
    (pyRangeLen d s : ℤ) = (d - 1) / s + 1 := by
  have h0 : (0:ℤ) ≤ d + s - 1 := by omega
  have hfd : (d + s - 1).fdiv s = (d + s - 1) / s := Int.fdiv_eq_ediv _ (le_of_lt hs)
  have hnn : 0 ≤ (d + s - 1) / s := Int.ediv_nonneg h0 (le_of_lt hs)
  have hsplit : (d + s - 1) / s = (d - 1) / s + 1 := by
    have h := Int.add_mul_ediv_right (d - 1) 1 (ne_of_gt hs)
    have he : d + s - 1 = d - 1 + 1 * s := by ring
    rw [he, h]
  have hL : (pyRangeLen d s : ℤ) = (d + s - 1) / s := by
    simp [pyRangeLen, hs, hfd, max_eq_right hnn, Int.toNat_of_nonneg hnn]
  rw [hL, hsplit]

lemma one_le_pyRangeLen (d s : ℤ) (hd : 1 ≤ d) (hs : 0 < s) :
    1 ≤ pyRangeLen d s := by
  have h := pyRangeLen_cast d s hd hs
  have hnn : 0 ≤ (d - 1) / s := Int.ediv_nonneg (by omega) (le_of_lt hs)
  omega

lemma mem_axisStarts (d s a : ℤ) :
    a ∈ axisStarts d s ↔ ∃ i : ℕ, i < pyRangeLen d s ∧ a = (i : ℤ) * s := by
  unfold axisStarts
  rw [List.mem_map]
  constructor
  · rintro ⟨i, hi, rfl⟩
    exact ⟨i, List.mem_range.1 hi, rfl⟩
  · rintro ⟨i, hi, rfl⟩
    exact ⟨i, List.mem_range.2 hi, rfl⟩

lemma axisStarts_bounds (d s a : ℤ) (hd : 1 ≤ d) (hs : 0 < s)
    (ha : a ∈ axisStarts d s) : 0 ≤ a ∧ a < d := by
  rcases (mem_axisStarts d s a).1 ha with ⟨i, hi, rfl⟩
  constructor
  · positivity
  · have hL : (i : ℤ) < (pyRangeLen d s : ℤ) := by exact_mod_cast hi
    rw [pyRangeLen_cast d s hd hs] at hL
    have hle : (i : ℤ) ≤ (d - 1) / s := by omega
    have h1 : (i : ℤ) * s ≤ ((d - 1) / s) * s :=
      mul_le_mul_of_nonneg_right hle (le_of_lt hs)
    have h2 : ((d - 1) / s) * s ≤ d - 1 := Int.ediv_mul_le (d - 1) (ne_of_gt hs)
    omega

lemma axisStarts_cover (d s x : ℤ) (hd : 1 ≤ d) (hs : 0 < s)
    (hx0 : 0 ≤ x) (hxd : x < d) :
    ∃ a ∈ axisStarts d s, a ≤ x ∧ x < min (a + s) d := by
  have hq : 0 ≤ x / s := Int.ediv_nonneg hx0 (le_of_lt hs)
  refine ⟨(x / s) * s, ?_, ?_, ?_⟩
  · rw [mem_axisStarts]
    refine ⟨(x / s).toNat, ?_, by rw [Int.toNat_of_nonneg hq]⟩
    have hle : x / s ≤ (d - 1) / s := Int.ediv_le_ediv hs (by omega)
    have hc := pyRangeLen_cast d s hd hs
    omega
  · exact Int.ediv_mul_le x (ne_of_gt hs)
  · have h1 : x < (x / s + 1) * s := Int.lt_ediv_add_one_mul_self x hs
    have h2 : (x / s + 1) * s = x / s * s + s := by ring
    exact lt_min (by omega) hxd

lemma axisStarts_spacing (d s a b : ℤ) (hs : 0 < s)
    (ha : a ∈ axisStarts d s) (hb : b ∈ axisStarts d s) (hne : a ≠ b) :
    a + s ≤ b ∨ b + s ≤ a := by
  rcases (mem_axisStarts d s a).1 ha with ⟨i, _, rfl⟩
  rcases (mem_axisStarts d s b).1 hb with ⟨j, _, rfl⟩
  have hij : i ≠ j := by rintro rfl; exact hne rfl
  rcases lt_or_gt_of_ne hij with h | h
  · left
    have hh : ((i : ℤ) + 1) * s ≤ (j : ℤ) * s :=
      mul_le_mul_of_nonneg_right (by exact_mod_cast h) (le_of_lt hs)
    linarith
  · right
    have hh : ((j : ℤ) + 1) * s ≤ (i : ℤ) * s :=
      mul_le_mul_of_nonneg_right (by exact_mod_cast h) (le_of_lt hs)
    linarith

lemma axisStarts_nodup (d s : ℤ) (hs : s ≠ 0) : (axisStarts d s).Nodup := by
  unfold axisStarts
  exact List.Nodup.map
    (fun i j hij => by exact_mod_cast mul_right_cancel₀ hs hij)
    (List.nodup_range _)

lemma axisStarts_ne_nil (d s : ℤ) (hd : 1 ≤ d) (hs : 0 < s) :
    axisStarts d s ≠ [] := by
  have h1 := one_le_pyRangeLen d s hd hs
  unfold axisStarts
  intro hc
  rw [List.map_eq_nil_iff, List.range_eq_nil] at hc
  omega
lemma mapM_except_ok {α β : Type} {f : α → Except PyErr β} :
    ∀ {l : List α} {r : List β}, l.mapM f = .ok r →
      List.Forall₂ (fun a b => f a = .ok b) l r := by
  intro l
  induction l with
  | nil =>
    intro r h
    simp only [List.mapM_nil] at h
    cases h
    exact List.Forall₂.nil
  | cons a l ih =>
    intro r h
    rw [List.mapM_cons] at h
    cases hfa : f a with
    | error e => rw [hfa] at h; simp [Bind.bind, Except.bind] at h
    | ok b =>
      rw [hfa] at h
      cases hml : l.mapM f with
      | error e => rw [hml] at h; simp [Bind.bind, Except.bind] at h
      | ok bs =>
        rw [hml] at h
        simp only [Bind.bind, Except.bind, Pure.pure, Except.pure] at h
        cases h
        exact List.Forall₂.cons hfa (ih hml)

lemma inBox_nil_iff (x : List ℤ) : inBox [] [] x ↔ x = [] := by
  cases x <;> simp [inBox]

lemma inBox_cons_iff (a b : ℤ) (sa sb x : List ℤ) :
    inBox (a :: sa) (b :: sb) x ↔
      ∃ y ys, x = y :: ys ∧ (a ≤ y ∧ y < b) ∧ inBox sa sb ys := by
  cases x with
  | nil => simp [inBox]
  | cons y ys =>
    simp only [inBox]
    constructor
    · rintro ⟨h1, h2⟩
      exact ⟨y, ys, rfl, h1, h2⟩
    · rintro ⟨y', ys', heq, h1, h2⟩
      cases heq
      exact ⟨h1, h2⟩

lemma mem_gridStarts_cons (p : ℤ × ℤ) (ps : List (ℤ × ℤ)) (st : List ℤ) :
    st ∈ gridStarts (p :: ps) ↔
      ∃ a ∈ axisStarts p.1 p.2, ∃ t ∈ gridStarts ps, st = a :: t := by
  simp only [gridStarts, List.map_cons, cartProd, List.mem_flatMap, List.mem_map]
  constructor
  · rintro ⟨a, ha, t, ht, rfl⟩
    exact ⟨a, ha, t, ht, rfl⟩
  · rintro ⟨a, ha, t, ht, rfl⟩
    exact ⟨a, ha, t, ht, rfl⟩

lemma gridStop_cons (p : ℤ × ℤ) (ps : List (ℤ × ℤ)) (a : ℤ) (t : List ℤ) :
    gridStop (p :: ps) (a :: t) = min (a + p.2) p.1 :: gridStop ps t := rfl

lemma grid_cover (pairs : List (ℤ × ℤ)) (H : ∀ p ∈ pairs, 1 ≤ p.1 ∧ 1 ≤ p.2) :
    ∀ x : List ℤ, (∃ st ∈ gridStarts pairs, inBox st (gridStop pairs st) x) ↔
      inBox (pairs.map (fun _ => 0)) (pairs.map Prod.fst) x := by
  induction pairs with
  | nil =>
    intro x
    constructor
    · rintro ⟨st, hst, hin⟩
      have : st = [] := by simpa [gridStarts, cartProd] using hst
      subst this
      simpa [gridStop] using hin
    · intro hx
      exact ⟨[], by simp [gridStarts, cartProd], by simpa [gridStop] using hx⟩
  | cons p ps ih =>
    have hp := H p (List.mem_cons_self p ps)
    have Hps : ∀ q ∈ ps, 1 ≤ q.1 ∧ 1 ≤ q.2 := fun q hq => H q (List.mem_cons_of_mem p hq)
    intro x
    constructor
    · rintro ⟨st, hst, hin⟩
      rcases (mem_gridStarts_cons p ps st).1 hst with ⟨a, ha, t, ht, rfl⟩
      rw [gridStop_cons] at hin
      rcases (inBox_cons_iff _ _ _ _ _).1 hin with ⟨y, ys, rfl, ⟨hay, hymin⟩, htail⟩
      have hb := axisStarts_bounds p.1 p.2 a hp.1 (by omega) ha
      rw [List.map_cons, List.map_cons]
      rw [inBox_cons_iff]
      refine ⟨y, ys, rfl, ⟨by omega, lt_of_lt_of_le hymin (min_le_right _ _)⟩, ?_⟩
      exact ((ih Hps) ys).1 ⟨t, ht, htail⟩
    · intro hx
      rw [List.map_cons, List.map_cons, inBox_cons_iff] at hx
      rcases hx with ⟨y, ys, rfl, ⟨hy0, hyd⟩, htail⟩
      rcases axisStarts_cover p.1 p.2 y hp.1 (by omega) hy0 hyd with ⟨a, ha, hay, hymin⟩
      rcases ((ih Hps) ys).2 htail with ⟨t, ht, htin⟩
      refine ⟨a :: t, (mem_gridStarts_cons p ps _).2 ⟨a, ha, t, ht, rfl⟩, ?_⟩
      rw [gridStop_cons, inBox_cons_iff]
      exact ⟨y, ys, rfl, ⟨hay, hymin⟩, htin⟩

lemma grid_disjoint (pairs : List (ℤ × ℤ)) (H : ∀ p ∈ pairs, 1 ≤ p.1 ∧ 1 ≤ p.2) :
    ∀ st1 ∈ gridStarts pairs, ∀ st2 ∈ gridStarts pairs, st1 ≠ st2 →
      ∀ x, inBox st1 (gridStop pairs st1) x → inBox st2 (gridStop pairs st2) x → False := by
  induction pairs with
  | nil =>
    intro st1 hst1 st2 hst2 hne
    have h1 : st1 = [] := by simpa [gridStarts, cartProd] using hst1
    have h2 : st2 = [] := by simpa [gridStarts, cartProd] using hst2
    exact absurd (h1.trans h2.symm) hne
  | cons p ps ih =>
    have hp := H p (List.mem_cons_self p ps)
    have Hps : ∀ q ∈ ps, 1 ≤ q.1 ∧ 1 ≤ q.2 := fun q hq => H q (List.mem_cons_of_mem p hq)
    intro st1 hst1 st2 hst2 hne x hin1 hin2
    rcases (mem_gridStarts_cons p ps st1).1 hst1 with ⟨a1, ha1, t1, ht1, rfl⟩
    rcases (mem_gridStarts_cons p ps st2).1 hst2 with ⟨a2, ha2, t2, ht2, rfl⟩
    rw [gridStop_cons] at hin1 hin2
    rcases (inBox_cons_iff _ _ _ _ _).1 hin1 with ⟨y, ys, rfl, ⟨hay1, hymin1⟩, htail1⟩
    rcases (inBox_cons_iff _ _ _ _ _).1 hin2 with ⟨y', ys', heq, ⟨hay2, hymin2⟩, htail2⟩
    cases heq
    by_cases haa : a1 = a2
    · subst haa
      have htne : t1 ≠ t2 := by
        intro hc
        exact hne (by rw [hc])
      exact ih Hps t1 ht1 t2 ht2 htne ys htail1 htail2
    · rcases axisStarts_spacing p.1 p.2 a1 a2 (by omega) ha1 ha2 haa with h | h
      · have : y < a1 + p.2 := lt_of_lt_of_le hymin1 (min_le_left _ _)
        omega
      · have : y < a2 + p.2 := lt_of_lt_of_le hymin2 (min_le_left _ _)
        omega

lemma grid_exists_mem (pairs : List (ℤ × ℤ)) (H : ∀ p ∈ pairs, 1 ≤ p.1 ∧ 1 ≤ p.2) :
    ∃ st, st ∈ gridStarts pairs := by
  induction pairs with
  | nil => exact ⟨[], by simp [gridStarts, cartProd]⟩
  | cons p ps ih =>
    have hp := H p (List.mem_cons_self p ps)
    have Hps : ∀ q ∈ ps, 1 ≤ q.1 ∧ 1 ≤ q.2 := fun q hq => H q (List.mem_cons_of_mem p hq)
    rcases ih Hps with ⟨t, ht⟩
    rcases List.exists_mem_of_ne_nil _ (axisStarts_ne_nil p.1 p.2 hp.1 (by omega)) with ⟨a, ha⟩
    exact ⟨a :: t, (mem_gridStarts_cons p ps _).2 ⟨a, ha, t, ht, rfl⟩⟩

lemma grid_nodup (pairs : List (ℤ × ℤ)) (H : ∀ p ∈ pairs, 1 ≤ p.1 ∧ 1 ≤ p.2) :
    (gridStarts pairs).Nodup := by
  induction pairs with
  | nil => simp [gridStarts, cartProd]
  | cons p ps ih =>
    have hp := H p (List.mem_cons_self p ps)
    have Hps : ∀ q ∈ ps, 1 ≤ q.1 ∧ 1 ≤ q.2 := fun q hq => H q (List.mem_cons_of_mem p hq)
    have hcons : gridStarts (p :: ps) =
        (axisStarts p.1 p.2).flatMap (fun a => (gridStarts ps).map (fun t => a :: t)) := rfl
    rw [hcons]
    rw [List.nodup_flatMap]
    refine ⟨fun a _ => List.Nodup.map (fun t1 t2 h => by injection h) (ih Hps), ?_⟩
    have hnd := axisStarts_nodup p.1 p.2 (by omega)
    refine List.Pairwise.imp ?_ hnd
    intro a b hab
    intro c hc1 hc2
    rcases List.mem_map.1 hc1 with ⟨t1, _, rfl⟩
    rcases List.mem_map.1 hc2 with ⟨t2, _, hc⟩
    injection hc with h1 h2
    exact hab h1.symm


lemma fdiv_nonpos_of_lt (q s : ℤ) (hs : s < 0) (hq : s < q) : q.fdiv s ≤ 0 := by
  cases q with
  | ofNat m =>
    cases m with
    | zero => simp [Int.zero_fdiv]
    | succ m =>
      cases s with
      | ofNat n => exact absurd hs (not_lt.2 (Int.ofNat_zero_le n))
      | negSucc n =>
        show Int.fdiv (Int.ofNat (m + 1)) (Int.negSucc n) ≤ 0
        simp only [Int.fdiv]
        exact le_of_lt (Int.negSucc_lt_zero _)
  | negSucc m =>
    cases s with
    | ofNat n => exact absurd hs (not_lt.2 (Int.ofNat_zero_le n))
    | negSucc n =>
      have hmn : m < n := by
        rw [Int.negSucc_eq, Int.negSucc_eq] at hq
        omega
      have hz : (m + 1) / (n + 1) = 0 := Nat.div_eq_of_lt (by omega)
      show Int.fdiv (Int.negSucc m) (Int.negSucc n) ≤ 0
      simp only [Int.fdiv]
      simp [Nat.succ_eq_add_one, hz]

lemma pyRangeLen_neg_step (d s : ℤ) (hd : 0 ≤ d) (hs : s < 0) :
    pyRangeLen d s = 0 := by
  have hq : s < d + s + 1 := by omega
  have h := fdiv_nonpos_of_lt (d + s + 1) s hs hq
  simp [pyRangeLen, not_lt.2 (le_of_lt hs), max_eq_left h]

lemma axisStarts_neg_step (d s : ℤ) (hd : 0 ≤ d) (hs : s < 0) :
    axisStarts d s = [] := by
  unfold axisStarts
  rw [pyRangeLen_neg_step d s hd hs]
  simp

lemma fdiv_neg_of_pos_of_neg (a b : ℤ) (ha : 0 < a) (hb : b < 0) : a.fdiv b < 0 := by
  cases a with
  | ofNat m =>
    cases m with
    | zero => exact absurd ha (lt_irrefl 0)
    | succ m =>
      cases b with
      | ofNat n => exact absurd hb (not_lt.2 (Int.ofNat_zero_le n))
      | negSucc n =>
        show Int.fdiv (Int.ofNat (m + 1)) (Int.negSucc n) < 0
        simp only [Int.fdiv]
        exact Int.negSucc_lt_zero _
  | negSucc m => exact absurd ha (not_lt.2 (le_of_lt (Int.negSucc_lt_zero m)))


lemma le_foldr_max (l : List ℕ) (b a : ℕ) (ha : a ∈ l) : a ≤ l.foldr max b := by
  induction l with
  | nil => cases ha
  | cons c l ih =>
    rcases List.mem_cons.1 ha with rfl | h
    · exact le_max_left _ _
    · exact le_trans (ih h) (le_max_right _ _)

lemma one_le_floorRoot (J S : ℕ) (hJ : 1 ≤ J) : 1 ≤ floorRoot J S := by
  have h1 : 1 ∈ (List.range (J + 2)).filter (fun n => n ^ S ≤ J) := by
    rw [List.mem_filter]
    exact ⟨List.mem_range.2 (by omega), by simpa using hJ⟩
  exact le_foldr_max _ 0 1 h1

lemma one_le_roundRoot (J S : ℕ) (hJ : 1 ≤ J) : 1 ≤ roundRoot J S := by
  have h := one_le_floorRoot J S hJ
  unfold roundRoot
  dsimp only
  split <;> omega

lemma numJobsPerSpaceDim_pos {J : ℤ} {S : ℕ} {k : ℤ} (hJ : 1 ≤ J)
    (h : numJobsPerSpaceDim J S = .ok k) : 1 ≤ k := by
  by_cases hS : S = 0
  · simp [numJobsPerSpaceDim, hS] at h
  · have h0 : 0 ≤ J := by omega
    simp [numJobsPerSpaceDim, hS, h0] at h
    have h1 : 1 ≤ J.toNat := by omega
    have h2 := one_le_roundRoot J.toNat S h1
    omega

lemma forall₂_mem_left {α β : Type} {R : α → β → Prop} :
    ∀ {l1 : List α} {l2 : List β}, List.Forall₂ R l1 l2 → ∀ a ∈ l1, ∃ b ∈ l2, R a b := by
  intro l1 l2 h
  induction h with
  | nil => intro a ha; cases ha
  | cons hr _ ih =>
    intro a ha
    rcases List.mem_cons.1 ha with rfl | h'
    · exact ⟨_, List.mem_cons_self _ _, hr⟩
    · rcases ih a h' with ⟨b, hb, hrb⟩
      exact ⟨b, List.mem_cons_of_mem _ hb, hrb⟩

lemma forall₂_eq_map {α β : Type} {g : α → β} :
    ∀ {l1 : List α} {l2 : List β}, List.Forall₂ (fun a b => b = g a) l1 l2 → l2 = l1.map g := by
  intro l1 l2 h
  induction h with
  | nil => rfl
  | cons hr _ ih => simp [hr, ih]

lemma getRoiList_ok_decomp {shape : List Axis} {J : ℤ} {rois : List Roi}
    (h : getRoiList shape J = .ok rois) :
    ∃ pairs : List (ℤ × ℤ),
      (∀ p ∈ pairs, 0 ≤ p.1 ∧ ¬ p.2 = 0) ∧
      (1 ≤ J → ∀ p ∈ pairs, 1 ≤ p.1 ∧ 1 ≤ p.2) ∧
      pairs.map Prod.fst = shape.map (fun a => ((a.dim : ℤ))) ∧
      pairs.map (fun _ => (0:ℤ)) = shape.map (fun _ => (0:ℤ)) ∧
      rois = (gridStarts pairs).map (fun st => (st, gridStop pairs st)) := by
  unfold getRoiList at h
  dsimp only at h
  cases hk : numJobsPerSpaceDim J (spaceDims shape).length with
  | error e => rw [hk] at h; cases h
  | ok k =>
  rw [hk] at h
  dsimp only at h
  cases hrs : mkRoiShape shape k with
  | error e => rw [hrs] at h; cases h
  | ok rs =>
  rw [hrs] at h
  dsimp only at h
  cases hrg : ((shape.map (fun a => (a.dim : ℤ))).zip rs).mapM (fun p => pyRange p.1 p.2) with
  | error e => rw [hrg] at h; cases h
  | ok ranges =>
  rw [hrg] at h
  dsimp only at h
  cases h
  have hf2 := mapM_except_ok hrs
  have hf2' : List.Forall₂ (fun (a : Axis) (s : ℤ) =>
      (s = Int.fdiv (a.dim : ℤ) k ∧ ¬ k = 0) ∨ s = (a.dim : ℤ)) shape rs := by
    refine hf2.imp ?_
    intro a s hgs
    by_cases hmem : a.key ∈ splitKeys shape
    · by_cases hk0 : k = 0
      · simp [hmem, hk0] at hgs
      · simp [hmem, hk0] at hgs
        exact Or.inl ⟨hgs.symm, hk0⟩
    · simp [hmem] at hgs
      exact Or.inr hgs.symm
  have hfd : List.Forall₂ (fun (d s : ℤ) =>
      ((s = Int.fdiv d k ∧ ¬ k = 0) ∨ s = d) ∧ 0 ≤ d)
      (shape.map (fun a => (a.dim : ℤ))) rs := by
    rw [List.forall₂_map_left_iff]
    refine hf2'.imp ?_
    intro a s hx
    exact ⟨hx, by positivity⟩
  have hlen : (shape.map (fun a => (a.dim : ℤ))).length = rs.length := hfd.length_eq
  have hf3 := mapM_except_ok hrg
  have hranges : ranges = ((shape.map (fun a => (a.dim : ℤ))).zip rs).map
      (fun p => axisStarts p.1 p.2) := by
    apply forall₂_eq_map
    refine hf3.imp ?_
    intro p r hpr
    unfold pyRange at hpr
    by_cases hz : p.2 = 0
    · simp [hz] at hpr
    · simp [hz] at hpr
      exact hpr.symm
  have hstep : ∀ p ∈ (shape.map (fun a => (a.dim : ℤ))).zip rs, ¬ p.2 = 0 := by
    intro p hp hz
    rcases forall₂_mem_left hf3 p hp with ⟨r, _, hpr⟩
    unfold pyRange at hpr
    simp [hz] at hpr
  have hzip : ∀ d s : ℤ, (d, s) ∈ (shape.map (fun a => (a.dim : ℤ))).zip rs →
      ((s = Int.fdiv d k ∧ ¬ k = 0) ∨ s = d) ∧ 0 ≤ d :=
    fun d s hm => (List.forall₂_iff_zip.1 hfd).2 hm
  have Hweak : ∀ p ∈ (shape.map (fun a => (a.dim : ℤ))).zip rs, 0 ≤ p.1 ∧ ¬ p.2 = 0 := by
    rintro ⟨d, s⟩ hp
    exact ⟨(hzip d s hp).2, hstep (d, s) hp⟩
  have H : 1 ≤ J → ∀ p ∈ (shape.map (fun a => (a.dim : ℤ))).zip rs, 1 ≤ p.1 ∧ 1 ≤ p.2 := by
    intro hJ
    have hk1 : 1 ≤ k := numJobsPerSpaceDim_pos hJ hk
    rintro ⟨d, s⟩ hp
    have hds := hzip d s hp
    have hs0 := hstep (d, s) hp
    dsimp only at hds hs0
    rcases hds with ⟨hcase, hd0⟩
    rcases hcase with ⟨hfd', hk0⟩ | hsd
    · have hfe : Int.fdiv d k = d / k := Int.fdiv_eq_ediv _ (by omega)
      rw [hfe] at hfd'
      have hq0 : 0 ≤ d / k := Int.ediv_nonneg hd0 (by omega)
      have hs_nonneg : 0 ≤ s := by omega
      have hs1 : 1 ≤ s := by omega
      have hdk : 1 ≤ d / k := by omega
      have hd1 := (Int.le_ediv_iff_mul_le (by omega : (0:ℤ) < k)).1 hdk
      exact ⟨by omega, hs1⟩
    · exact ⟨by omega, by omega⟩
  have hfst : ((shape.map (fun a => (a.dim : ℤ))).zip rs).map Prod.fst =
      shape.map (fun a => (a.dim : ℤ)) := List.map_fst_zip _ _ (le_of_eq hlen)
  have hsnd : ((shape.map (fun a => (a.dim : ℤ))).zip rs).map Prod.snd = rs :=
    List.map_snd_zip _ _ (le_of_eq hlen.symm)
  refine ⟨(shape.map (fun a => (a.dim : ℤ))).zip rs, Hweak, H, hfst, ?_, ?_⟩
  · rw [List.map_const', List.map_const']
    congr 1
    have hlen2 : shape.length = rs.length := by
      rw [List.length_map] at hlen
      exact hlen
    rw [List.length_zip, List.length_map]
    omega
  · simp only [gridStarts, gridStop, hranges, hfst, hsnd]


lemma cartProd_eq_nil_iff : ∀ (ls : List (List ℤ)), cartProd ls = [] ↔ ∃ l ∈ ls, l = [] := by
  intro ls
  induction ls with
  | nil => simp [cartProd]
  | cons l ls ih =>
    simp only [cartProd, List.flatMap_eq_nil_iff, List.map_eq_nil_iff]
    constructor
    · intro hall
      by_cases hl : l = []
      · exact ⟨l, List.mem_cons_self _ _, hl⟩
      · rcases List.exists_mem_of_ne_nil l hl with ⟨a, ha⟩
        rcases ih.1 (hall a ha) with ⟨l', hl', he⟩
        exact ⟨l', List.mem_cons_of_mem _ hl', he⟩
    · rintro ⟨l', hl', he⟩ a ha
      rcases List.mem_cons.1 hl' with rfl | hmem
      · subst he; cases ha
      · exact ih.2 ⟨l', hmem, he⟩

lemma one_le_of_axisStarts_mem (d s a : ℤ) (hd : 0 ≤ d) (hs : ¬ s = 0)
    (ha : a ∈ axisStarts d s) : 1 ≤ d ∧ 1 ≤ s := by
  have hL : 1 ≤ pyRangeLen d s := by
    rcases (mem_axisStarts d s a).1 ha with ⟨i, hi, _⟩
    omega
  rcases lt_trichotomy s 0 with hneg | hz | hpos
  · rw [pyRangeLen_neg_step d s hd hneg] at hL
    omega
  · exact absurd hz hs
  · constructor
    · by_contra hd1
      have hd0 : d = 0 := by omega
      subst hd0
      have : pyRangeLen 0 s = 0 := by
        have h1 : (s - 1).fdiv s = (s - 1) / s := Int.fdiv_eq_ediv _ (le_of_lt hpos)
        have h2 : (s - 1) / s = 0 := by
          apply Int.ediv_eq_zero_of_lt <;> omega
        simp [pyRangeLen, hpos]
        rw [h1, h2]
      omega
    · omega

lemma grid_start_lt_stop (pairs : List (ℤ × ℤ))
    (H : ∀ p ∈ pairs, 0 ≤ p.1 ∧ ¬ p.2 = 0) :
    ∀ st ∈ gridStarts pairs, List.Forall₂ (· < ·) st (gridStop pairs st) := by
  induction pairs with
  | nil =>
    intro st hst
    have : st = [] := by simpa [gridStarts, cartProd] using hst
    subst this
    exact List.Forall₂.nil
  | cons p ps ih =>
    have hp := H p (List.mem_cons_self p ps)
    have Hps : ∀ q ∈ ps, 0 ≤ q.1 ∧ ¬ q.2 = 0 := fun q hq => H q (List.mem_cons_of_mem p hq)
    intro st hst
    rcases (mem_gridStarts_cons p ps st).1 hst with ⟨a, ha, t, ht, rfl⟩
    rw [gridStop_cons]
    have h1 := one_le_of_axisStarts_mem p.1 p.2 a hp.1 hp.2 ha
    have hb := axisStarts_bounds p.1 p.2 a h1.1 (by omega) ha
    exact List.Forall₂.cons (lt_min (by omega) hb.2) (ih Hps t ht)

lemma roundRoot_zero (S : ℕ) (hS : ¬ S = 0) : roundRoot 0 S = 0 := by
  have hfr : floorRoot 0 S = 0 := by
    unfold floorRoot
    have hr : List.range (0 + 2) = [0, 1] := rfl
    rw [hr]
    have h0 : (fun n => decide (n ^ S ≤ 0)) 0 = true := by
      simp [Nat.zero_pow (by omega : 0 < S)]
    have h1 : (fun n => decide (n ^ S ≤ 0)) 1 = false := by simp
    simp [List.filter, Nat.zero_pow (by omega : 0 < S)]
  unfold roundRoot
  rw [hfr]
  simp

lemma forall₂_mem_zip_left {α β : Type} {R : α → β → Prop} {f : α → ℤ} :
    ∀ {l1 : List α} {l2 : List β}, List.Forall₂ R l1 l2 → ∀ a ∈ l1,
      ∃ b, R a b ∧ (f a, b) ∈ (l1.map f).zip l2 := by
  intro l1 l2 h
  induction h with
  | nil => intro a ha; cases ha
  | cons hr hrest ih =>
    intro a ha
    rcases List.mem_cons.1 ha with rfl | h'
    · exact ⟨_, hr, List.mem_cons_self _ _⟩
    · rcases ih a h' with ⟨b, hb, hmem⟩
      exact ⟨b, hb, List.mem_cons_of_mem _ hmem⟩

/-- Successful runs of the partitioner with a non-positive job count (or no
splittable axis) can only produce the empty region list. -/
lemma getRoiList_degenerate_aux {shape : List Axis} {J : ℤ} {rois : List Roi}
    (hcond : J ≤ 0 ∨ spaceDims shape = [])
    (h : getRoiList shape J = .ok rois) : rois = [] := by
  unfold getRoiList at h
  dsimp only at h
  cases hk : numJobsPerSpaceDim J (spaceDims shape).length with
  | error e => rw [hk] at h; cases h
  | ok k =>
  rw [hk] at h
  dsimp only at h
  cases hrs : mkRoiShape shape k with
  | error e => rw [hrs] at h; cases h
  | ok rs =>
  rw [hrs] at h
  dsimp only at h
  cases hrg : ((shape.map (fun a => (a.dim : ℤ))).zip rs).mapM (fun p => pyRange p.1 p.2) with
  | error e => rw [hrg] at h; cases h
  | ok ranges =>
  rw [hrg] at h
  dsimp only at h
  cases h
  -- numJobsPerSpaceDim succeeded, so there is at least one splittable axis
  have hS : ¬ (spaceDims shape).length = 0 := by
    intro hz
    simp [numJobsPerSpaceDim, hz] at hk
  have hJle : J ≤ 0 := by
    rcases hcond with hJ | hsd
    · exact hJ
    · exact absurd (by rw [hsd]; rfl) hS
  rcases List.exists_mem_of_ne_nil (spaceDims shape)
    (fun hn => hS (by rw [hn]; rfl)) with ⟨astar, hastar⟩
  have hsplit : isSplittable astar = true := (List.mem_filter.1 hastar).2
  have hmemshape : astar ∈ shape := (List.mem_filter.1 hastar).1
  have hkey : astar.key ∈ splitKeys shape := List.mem_map_of_mem Axis.key hastar
  have hdim2 : 1 < astar.dim := by
    have := hsplit
    unfold isSplittable at this
    simp at this
    exact this.2
  have hf2 := mapM_except_ok hrs
  -- the value of k
  by_cases hJ0 : J = 0
  · -- k = 0 and mkRoiShape must have raised
    have hk0 : k = 0 := by
      subst hJ0
      simp [numJobsPerSpaceDim, hS] at hk
      rw [roundRoot_zero _ hS] at hk
      omega
    rcases forall₂_mem_left hf2 astar hmemshape with ⟨s, _, hgs⟩
    rw [if_pos hkey, if_pos hk0] at hgs
    cases hgs
  · have hJneg : J < 0 := by omega
    have hknegeq : k = J := by
      have h0 : ¬ 0 ≤ J := by omega
      by_cases hS1 : (spaceDims shape).length = 1
      · simp [numJobsPerSpaceDim, hS, h0, hS1] at hk
        omega
      · simp [numJobsPerSpaceDim, hS, h0, hS1] at hk
    -- the splittable axis gets a negative step, so its range is empty
    rcases forall₂_mem_zip_left (f := fun a => ((a.dim : ℤ)))
      hf2 astar hmemshape with ⟨s, hgs, hmemzip⟩
    rw [if_pos hkey, if_neg (by omega : ¬ k = 0)] at hgs
    have hsneg : s < 0 := by
      have := fdiv_neg_of_pos_of_neg (astar.dim : ℤ) k (by exact_mod_cast hdim2.trans_le (le_refl _) |>.le.trans_lt' (by omega)) (by omega)
      cases hgs
      omega
    have hf3 := mapM_except_ok hrg
    rcases forall₂_mem_left hf3 _ hmemzip with ⟨r, hrmem, hpr⟩
    unfold pyRange at hpr
    rw [if_neg (by dsimp only; omega : ¬ ((astar.dim : ℤ), s).2 = 0)] at hpr
    have hrempty : r = [] := by
      cases hpr
      exact axisStarts_neg_step _ _ (by positivity) hsneg
    have hcpe : cartProd ranges = [] :=
      (cartProd_eq_nil_iff ranges).2 ⟨r, hrmem, hrempty⟩
    rw [hcpe]
    rfl


lemma copyFinishedResults_error_of_bad (meta : InputMeta) (fs : Roi → FsView) :
    ∀ (l : List Roi) (roi : Roi), roi ∈ l → (fs roi).statusExists = true →
      ((fs roi).outputFile = none ∨
        ∃ f, (fs roi).outputFile = some f ∧
          (f.nodeResult = none ∨
            ∃ r, f.nodeResult = some r ∧ validResult meta roi r = false)) →
      ∃ e, (copyFinishedResults meta fs l).1 = .error e := by
  intro l
  induction l with
  | nil => intro roi h; cases h
  | cons a l ih =>
    intro roi hmem hst hbad
    rcases List.mem_cons.1 hmem with rfl | hmem'
    · rw [copyFinishedResults]
      rw [if_neg (by rw [hst]; simp)]
      rcases hbad with hnone | ⟨f, hf, hbad2⟩
      · rw [hnone]
        exact ⟨.runtimeError, rfl⟩
      · rw [hf]
        dsimp only
        rcases hbad2 with hnr | ⟨r, hr, hinv⟩
        · rw [hnr]
          exact ⟨.assertionError, rfl⟩
        · rw [hr]
          dsimp only
          rw [if_neg (by rw [hinv]; simp)]
          exact ⟨.assertionError, rfl⟩
    · rcases ih roi hmem' hst hbad with ⟨e, he⟩
      rw [copyFinishedResults]
      by_cases hsa : (fs a).statusExists = false
      · rw [if_pos hsa]
        exact ⟨e, he⟩
      · rw [if_neg hsa]
        cases hoa : (fs a).outputFile with
        | none => exact ⟨.runtimeError, rfl⟩
        | some fa =>
          dsimp only
          cases hna : fa.nodeResult with
          | none => exact ⟨.assertionError, rfl⟩
          | some ra =>
            dsimp only
            by_cases hva : validResult meta a ra
            · rw [if_pos hva]
              rcases hcp : copyFinishedResults meta fs l with ⟨res, writes⟩
              rw [hcp] at he
              dsimp only at he ⊢
              rw [he]
              exact ⟨e, rfl⟩
            · rw [if_neg hva]
              exact ⟨.assertionError, rfl⟩

lemma copyFinishedResults_writes_valid (meta : InputMeta) (fs : Roi → FsView) :
    ∀ (l : List Roi) (roi : Roi), roi ∈ (copyFinishedResults meta fs l).2 →
      ∃ f r, (fs roi).outputFile = some f ∧ f.nodeResult = some r ∧
        validResult meta roi r = true := by
  intro l
  induction l with
  | nil => intro roi h; cases h
  | cons a l ih =>
    intro roi hmem
    rw [copyFinishedResults] at hmem
    by_cases hsa : (fs a).statusExists = false
    · rw [if_pos hsa] at hmem
      exact ih roi hmem
    · rw [if_neg hsa] at hmem
      cases hoa : (fs a).outputFile with
      | none =>
        rw [hoa] at hmem
        cases hmem
      | some fa =>
        rw [hoa] at hmem
        dsimp only at hmem
        cases hna : fa.nodeResult with
        | none =>
          rw [hna] at hmem
          cases hmem
        | some ra =>
          rw [hna] at hmem
          dsimp only at hmem
          by_cases hva : validResult meta a ra
          · rw [if_pos hva] at hmem
            rcases hcp : copyFinishedResults meta fs l with ⟨res, writes⟩
            rw [hcp] at hmem
            dsimp only at hmem
            rcases List.mem_cons.1 hmem with rfl | hmem'
            · exact ⟨fa, ra, hoa, hna, hva⟩
            · have h2 := ih roi
              rw [hcp] at h2
              exact h2 hmem'
          · rw [if_neg hva] at hmem
            cases hmem
/-! ### The claims -/
/-- **C1** (counterexample): for shape `x:2` and job count 8 the partitioner
does not produce any region list at all — `roiShape` becomes `2 / 8 = 0` and
`range(0, 2, 0)` raises `ValueError` — so the claimed tiling guarantee cannot
hold for *every* shape and every `J ≥ 1`. -/
theorem getRoiList_partition_counterexample :
    getRoiList [⟨'x', 2⟩] 8 = .error .valueError := by decide

/-- **C1** (amended): for every shape and every job count `J ≥ 1` on which
`_getRoiList` actually returns a region list (rather than raising), that list
is nonempty, pairwise non-overlapping, and its union is exactly the full
input shape. -/
theorem getRoiList_partition {shape : List Axis} {J : ℤ} {rois : List Roi}
    (hJ : 1 ≤ J) (h : getRoiList shape J = .ok rois) :
    rois ≠ [] ∧
    rois.Pairwise (fun r1 r2 => ∀ x, ¬ (inBox r1.1 r1.2 x ∧ inBox r2.1 r2.2 x)) ∧
    (∀ x, (∃ r ∈ rois, inBox r.1 r.2 x) ↔
      inBox (shape.map (fun _ => (0:ℤ))) (shape.map (fun a => (a.dim : ℤ))) x) := by
  rcases getRoiList_ok_decomp h with ⟨pairs, _, Hs, hfst, hzero, hroi⟩
  have H := Hs hJ
  subst hroi
  refine ⟨?_, ?_, ?_⟩
  · rcases grid_exists_mem pairs H with ⟨st, hst⟩
    exact List.ne_nil_of_mem (List.mem_map_of_mem _ hst)
  · have hnd : (gridStarts pairs).Nodup := grid_nodup pairs H
    have hndm : ((gridStarts pairs).map
        (fun st => (st, gridStop pairs st))).Nodup :=
      hnd.map (fun st1 st2 he => congrArg Prod.fst he)
    refine List.Pairwise.imp_of_mem ?_ hndm
    intro r1 r2 h1 h2 hne
    rcases List.mem_map.1 h1 with ⟨st1, hst1, rfl⟩
    rcases List.mem_map.1 h2 with ⟨st2, hst2, rfl⟩
    have hstne : st1 ≠ st2 := by
      intro hc
      exact hne (by rw [hc])
    intro x hx
    exact grid_disjoint pairs H st1 hst1 st2 hst2 hstne x hx.1 hx.2
  · intro x
    have hc := grid_cover pairs H x
    rw [hzero, hfst] at hc
    rw [← hc]
    constructor
    · rintro ⟨r, hr, hin⟩
      rcases List.mem_map.1 hr with ⟨st, hst, rfl⟩
      exact ⟨st, hst, hin⟩
    · rintro ⟨st, hst, hin⟩
      exact ⟨(st, gridStop pairs st), List.mem_map_of_mem _ hst, hin⟩

/-- Witness for C1: shape `x:4` with 2 jobs yields regions `[0,2)` and
`[2,4)`, a nonempty list. -/
theorem getRoiList_partition_witness :
    ([(([0],[2]) : Roi), ([2],[4])]) ≠ [] :=
  (getRoiList_partition (by decide : (1:ℤ) ≤ 2)
    (by decide : getRoiList [⟨'x', 4⟩] 2 = .ok [([0],[2]), ([2],[4])])).1

/-- **C8** (counterexample): for a shape with no splittable axis (single
channel axis `c:3`) and job count 5, `_getRoiList` raises `ZeroDivisionError`
(from `1.0/len(spaceDims)`) instead of returning one whole-shape region. -/
theorem getRoiList_degenerate_counterexample :
    getRoiList [⟨'c', 3⟩] 5 = .error .zeroDivisionError := by decide

/-- **C8** (amended): when the job count is not positive or the shape has no
splittable axis with extent > 1, `_getRoiList` never returns a nonempty
region list: it raises an exception (`ZeroDivisionError` when `S = 0` or
`J = 0`, `ValueError` from `math.pow` when `J < 0` with several splittable
axes), or — for `J < 0` with exactly one splittable axis — returns the empty
list.  There is no whole-shape fallback region. -/
theorem getRoiList_degenerate {shape : List Axis} {J : ℤ}
    (hcond : J ≤ 0 ∨ spaceDims shape = []) :
    ∀ rois, getRoiList shape J = .ok rois → rois = [] :=
  fun _ h => getRoiList_degenerate_aux hcond h

/-- Witness for C8: shape `x:5` with job count `-1` really does return the
empty region list. -/
theorem getRoiList_degenerate_witness : ([] : List Roi) = [] :=
  getRoiList_degenerate (Or.inl (by decide : (-1:ℤ) ≤ 0)) []
    (by decide : getRoiList [⟨'x', 5⟩] (-1) = .ok [])

/-- **C9**: for shape `{x:100, y:100, z:30}` and 8 jobs, `_getRoiList`
produces exactly the 8 regions of shape `{x:50, y:50, z:15}`, whose union is
the full `[0,100) × [0,100) × [0,30)` volume. -/
theorem getRoiList_scenarioA :
    getRoiList [⟨'x',100⟩, ⟨'y',100⟩, ⟨'z',30⟩] 8 = .ok scenarioARois ∧
    scenarioARois.length = 8 ∧
    (∀ r ∈ scenarioARois, List.zipWith (fun b a => b - a) r.2 r.1 = [50, 50, 15]) ∧
    (∀ x, (∃ r ∈ scenarioARois, inBox r.1 r.2 x) ↔ inBox [0,0,0] [100,100,30] x) := by
  refine ⟨by decide, by decide, by decide, ?_⟩
  intro x
  have H : ∀ p ∈ ([(100,50),(100,50),(30,15)] : List (ℤ × ℤ)), 1 ≤ p.1 ∧ 1 ≤ p.2 := by
    decide
  have hc := grid_cover [(100,50),(100,50),(30,15)] H x
  have he : (gridStarts [(100,50),(100,50),(30,15)]).map
      (fun st => (st, gridStop [(100,50),(100,50),(30,15)] st)) = scenarioARois := by
    decide
  have hzeros : ([(100,50),(100,50),(30,15)] : List (ℤ × ℤ)).map (fun _ => (0:ℤ)) =
      [0,0,0] := rfl
  have hfst : ([(100,50),(100,50),(30,15)] : List (ℤ × ℤ)).map Prod.fst =
      [100,100,30] := rfl
  rw [hzeros, hfst] at hc
  rw [← hc, ← he]
  constructor
  · rintro ⟨r, hr, hin⟩
    rcases List.mem_map.1 hr with ⟨st, hst, rfl⟩
    exact ⟨st, hst, hin⟩
  · rintro ⟨st, hst, hin⟩
    exact ⟨(st, gridStop [(100,50),(100,50),(30,15)] st), List.mem_map_of_mem _ hst, hin⟩

/-- **C10**: every region in any list `_getRoiList` successfully returns has
`start[i] < stop[i]` on every axis. -/
theorem getRoiList_regions_proper {shape : List Axis} {J : ℤ} {rois : List Roi}
    (h : getRoiList shape J = .ok rois) :
    ∀ r ∈ rois, List.Forall₂ (· < ·) r.1 r.2 := by
  rcases getRoiList_ok_decomp h with ⟨pairs, Hweak, _, _, _, hroi⟩
  subst hroi
  intro r hr
  rcases List.mem_map.1 hr with ⟨st, hst, rfl⟩
  exact grid_start_lt_stop pairs Hweak st hst

/-- Witness for C10: the single region for shape `x:4`, 1 job is proper. -/
theorem getRoiList_regions_proper_witness :
    List.Forall₂ (fun a b => a < b) ([0] : List ℤ) [4] :=
  getRoiList_regions_proper
    (by decide : getRoiList [⟨'x', 4⟩] 1 = .ok [([0],[4])])
    ([0],[4]) (by decide)


/-- **C2** (counterexample): the timeout comparison reads
`Timer.seconds`, which wraps modulo 86400, so the claim's "for every timeout
budget T" fails: with `T = 90000 > 86400`, jobs that never complete and
15-second polling passes, the check at index 6000 has true wall-clock
elapsed `15 * 6000 = 90000 ≥ T`, yet its timer reading is `90000 % 86400 =
3600 < T` — the loop does not stop and return failure there (nor at the
next check); it keeps polling until the fuel runs out. -/
theorem executeLoop_timeout_counterexample :
    executeLoop ⟨0, []⟩ (fun _ _ => ⟨false, none⟩) 90000 (fun n => 15 * n) 2 6000
      [([0],[2]), ([2],[4])] true = none ∧ 90000 ≤ 15 * 6000 := by
  constructor
  · decide
  · decide

/-- **C2** (amended): whenever the polling loop's timeout check (index `n`)
sees a timer reading `totalTimer.seconds() >= timeOut` — the reading being
the elapsed wall-clock seconds modulo 86400, because `Timer.seconds` returns
the `timedelta.seconds` component — while tasks are still active, the loop
stops polling right there: `execute` will report failure (`success = False`)
with the entire active set still unfinished, after exactly `n` completed
polling passes.  In Scenario D (timeout of one 15-second polling interval,
no job ever completing, no wrap in play) this fires at the check after the
single polling pass, see the witness. -/
theorem executeLoop_timeout (meta : InputMeta) (env : ℕ → Roi → FsView)
    (timeOut : ℕ) (elapsed : ℕ → ℕ) (fuel n : ℕ) (taskInfos : List Roi)
    (success : Bool) (hne : taskInfos ≠ [])
    (ht : timeOut ≤ timerSeconds (elapsed n)) (hf : 1 ≤ fuel) :
    executeLoop meta env timeOut elapsed fuel n taskInfos success =
      some (.ok ⟨false, taskInfos, n⟩) := by
  cases fuel with
  | zero => omega
  | succ fuel => simp [executeLoop, hne, ht]

/-- Witness for C2 (Scenario D): two jobs, no status file ever appears,
timeout = one 15-second polling interval (`elapsed n = 15 * n`): the run
started at check 0 returns failure at check 1, after exactly one polling
pass, with both jobs still active. -/
theorem executeLoop_timeout_witness :
    executeLoop ⟨0, []⟩ (fun _ _ => ⟨false, none⟩) 15 (fun n => 15 * n) 4 0
      [([0],[2]), ([2],[4])] true =
      some (.ok ⟨false, [([0],[2]), ([2],[4])], 1⟩) :=
  (show executeLoop ⟨0, []⟩ (fun _ _ => ⟨false, none⟩) 15 (fun n => 15 * n) 4 0
      [([0],[2]), ([2],[4])] true =
    executeLoop ⟨0, []⟩ (fun _ _ => ⟨false, none⟩) 15 (fun n => 15 * n) 3 1
      [([0],[2]), ([2],[4])] true by decide).trans
  (executeLoop_timeout ⟨0, []⟩ (fun _ _ => ⟨false, none⟩) 15 (fun n => 15 * n) 3 1
    [([0],[2]), ([2],[4])] true (by decide) (by decide) (by decide))

/-- **C5**: if during a polling pass some job's status marker exists but its
output file does not, `_copyFinishedResults` raises (a `RuntimeError` when
that job is reached first), the exception propagates out of the polling
loop, and the run therefore never returns success. -/
theorem missing_output_aborts (meta : InputMeta) (env : ℕ → Roi → FsView)
    (timeOut : ℕ) (elapsed : ℕ → ℕ) (fuel n : ℕ) (taskInfos : List Roi)
    (success : Bool) (roi : Roi) (hmem : roi ∈ taskInfos)
    (hst : (env n roi).statusExists = true)
    (hout : (env n roi).outputFile = none)
    (hel : elapsed n < timeOut) (hf : 1 ≤ fuel) :
    ∃ e, executeLoop meta env timeOut elapsed fuel n taskInfos success =
      some (.error e) := by
  cases fuel with
  | zero => omega
  | succ fuel =>
    have hne : taskInfos ≠ [] := List.ne_nil_of_mem hmem
    rcases copyFinishedResults_error_of_bad meta (env n) taskInfos roi hmem hst
      (Or.inl hout) with ⟨e, he⟩
    refine ⟨e, ?_⟩
    rw [executeLoop]
    rw [if_neg (by simpa using hne), if_neg (by simp only [timerSeconds]; omega)]
    have hpair : copyFinishedResults meta (env n) taskInfos =
        (.error e, (copyFinishedResults meta (env n) taskInfos).2) := by
      rw [← he]
    rw [hpair]

/-- Witness for C5: one job whose marker exists but whose output file is
missing makes the loop abort with an exception. -/
theorem missing_output_aborts_witness :
    ∃ e, executeLoop ⟨0, []⟩ (fun _ _ => ⟨true, none⟩) 9 (fun _ => 0) 1 0
      [([0],[3])] true = some (.error e) :=
  missing_output_aborts ⟨0, []⟩ (fun _ _ => ⟨true, none⟩) 9 (fun _ => 0) 1 0
    [([0],[3])] true ([0],[3]) (by decide) (by decide) (by decide)
    (by decide) (by decide)

/-- **C6**: if a job's marker and output are present but the result fails
validation (shape, dtype or axistags mismatch), the aggregation pass raises
before writing that job's data: the pass ends in an error and that job's
region is not among the regions written into the `cluster_result` dataset. -/
theorem validation_failure_unwritten (meta : InputMeta) (fs : Roi → FsView)
    (l : List Roi) (roi : Roi) (f : OutputFile) (r : NodeResult)
    (hmem : roi ∈ l) (hst : (fs roi).statusExists = true)
    (hout : (fs roi).outputFile = some f) (hnr : f.nodeResult = some r)
    (hinv : validResult meta roi r = false) :
    (∃ e, (copyFinishedResults meta fs l).1 = .error e) ∧
    roi ∉ (copyFinishedResults meta fs l).2 := by
  constructor
  · exact copyFinishedResults_error_of_bad meta fs l roi hmem hst
      (Or.inr ⟨f, hout, Or.inr ⟨r, hnr, hinv⟩⟩)
  · intro hw
    rcases copyFinishedResults_writes_valid meta fs l roi hw with ⟨f', r', hout', hnr', hval⟩
    rw [hout] at hout'
    cases hout'
    rw [hnr] at hnr'
    cases hnr'
    rw [hval] at hinv
    cases hinv

/-- Witness for C6: two jobs, the second completed with a wrong dtype; the
pass errors and the bad job's region is not written. -/
theorem validation_failure_unwritten_witness :
    (∃ e, (copyFinishedResults ⟨0, []⟩
      (fun r => if r = (([2],[4]) : Roi) then ⟨true, some ⟨some ⟨[2], 1, []⟩⟩⟩
        else ⟨true, some ⟨some ⟨[2], 0, []⟩⟩⟩)
      [([0],[2]), ([2],[4])]).1 = .error e) ∧
    (([2],[4]) : Roi) ∉ (copyFinishedResults ⟨0, []⟩
      (fun r => if r = (([2],[4]) : Roi) then ⟨true, some ⟨some ⟨[2], 1, []⟩⟩⟩
        else ⟨true, some ⟨some ⟨[2], 0, []⟩⟩⟩)
      [([0],[2]), ([2],[4])]).2 :=
  validation_failure_unwritten ⟨0, []⟩
    (fun r => if r = (([2],[4]) : Roi) then ⟨true, some ⟨some ⟨[2], 1, []⟩⟩⟩
      else ⟨true, some ⟨some ⟨[2], 0, []⟩⟩⟩)
    [([0],[2]), ([2],[4])] ([2],[4]) ⟨some ⟨[2], 1, []⟩⟩ ⟨[2], 1, []⟩
    (by decide) (by decide) (by decide) (by decide) (by decide)

/-- **C7** (counterexample): a state where one job's marker is present with
an invalid result and a second job is still pending: the loop does *not*
mark the bad job failed and continue — it aborts with the `AssertionError`,
and the failure-detection step reports nothing. -/
theorem validation_failure_no_continue_counterexample :
    executeLoop ⟨0, []⟩
      (fun _ r => if r = (([0,0],[2,2]) : Roi)
        then ⟨true, some ⟨some ⟨[2,2], 1, []⟩⟩⟩ else ⟨false, none⟩)
      100 (fun _ => 0) 5 0 [([0,0],[2,2]), ([2,0],[4,2])] true =
      some (.error .assertionError) ∧
    checkForFailures [([0,0],[2,2]), ([2,0],[4,2])] = [] := by
  constructor
  · decide
  · rfl

/-- **C7** (amended): when a polled job's status marker is present but its
validation fails, the whole polling loop aborts with the raised exception —
the job is not individually marked failed and the remaining jobs are not
polled further — and `_checkForFailures` never reports any failed job (it is
a stub returning the empty list). -/
theorem validation_failure_aborts_loop (meta : InputMeta) (env : ℕ → Roi → FsView)
    (timeOut : ℕ) (elapsed : ℕ → ℕ) (fuel n : ℕ) (taskInfos : List Roi)
    (success : Bool) (roi : Roi) (f : OutputFile) (r : NodeResult)
    (hmem : roi ∈ taskInfos) (hst : (env n roi).statusExists = true)
    (hout : (env n roi).outputFile = some f) (hnr : f.nodeResult = some r)
    (hinv : validResult meta roi r = false)
    (hel : elapsed n < timeOut) (hf : 1 ≤ fuel) :
    (∃ e, executeLoop meta env timeOut elapsed fuel n taskInfos success =
      some (.error e)) ∧
    (∀ l : List Roi, checkForFailures l = []) := by
  refine ⟨?_, fun _ => rfl⟩
  cases fuel with
  | zero => omega
  | succ fuel =>
    have hne : taskInfos ≠ [] := List.ne_nil_of_mem hmem
    rcases copyFinishedResults_error_of_bad meta (env n) taskInfos roi hmem hst
      (Or.inr ⟨f, hout, Or.inr ⟨r, hnr, hinv⟩⟩) with ⟨e, he⟩
    refine ⟨e, ?_⟩
    rw [executeLoop]
    rw [if_neg (by simpa using hne), if_neg (by simp only [timerSeconds]; omega)]
    have hpair : copyFinishedResults meta (env n) taskInfos =
        (.error e, (copyFinishedResults meta (env n) taskInfos).2) := by
      rw [← he]
    rw [hpair]

/-- Witness for C7's amended theorem: a single job with a wrong-dtype result
aborts the loop. -/
theorem validation_failure_aborts_loop_witness :
    (∃ e, executeLoop ⟨0, []⟩ (fun _ _ => ⟨true, some ⟨some ⟨[3], 1, []⟩⟩⟩) 9
      (fun _ => 0) 1 0 [([0],[3])] true = some (.error e)) ∧
    (∀ l : List Roi, checkForFailures l = []) :=
  validation_failure_aborts_loop ⟨0, []⟩ (fun _ _ => ⟨true, some ⟨some ⟨[3], 1, []⟩⟩⟩)
    9 (fun _ => 0) 1 0 [([0],[3])] true ([0],[3]) ⟨some ⟨[3], 1, []⟩⟩ ⟨[3], 1, []⟩
    (by decide) (by decide) (by decide) (by decide) (by decide) (by decide) (by decide)


/-- **C3**: if the command format string lacks the `\x7bargs\x7d` placeholder
then (for any positive job count) the run is rejected while preparing the
tasks: `_prepareTaskInfos` raises before deleting a single stale
status/output file, and `execute` spawns no process. -/
theorem missing_placeholder_rejects (cfg : ClusterConfig)
    (hargs : hasArgsPlaceholder cfg.commandFormat = false)
    (hJ : 1 ≤ cfg.numJobs) :
    (∃ e, (prepareTaskInfos cfg).1 = .error e) ∧
    (prepareTaskInfos cfg).2 = [] ∧ executeSpawns cfg = [] := by
  have hprep : ∃ e, prepareTaskInfos cfg = (.error e, []) := by
    unfold prepareTaskInfos
    cases hg : getRoiList cfg.shape cfg.numJobs with
    | error e => exact ⟨e, rfl⟩
    | ok rois =>
      have hne : rois ≠ [] := by
        rcases getRoiList_ok_decomp hg with ⟨pairs, _, Hs, _, _, hroi⟩
        subst hroi
        rcases grid_exists_mem pairs (Hs hJ) with ⟨st, hst⟩
        exact List.ne_nil_of_mem (List.mem_map_of_mem _ hst)
      cases rois with
      | nil => exact absurd rfl hne
      | cons roi rest =>
        dsimp only
        rw [prepLoop]
        dsimp only
        rw [if_pos hargs]
        exact ⟨.assertionError, rfl⟩
  rcases hprep with ⟨e, he⟩
  refine ⟨⟨e, by rw [he]⟩, by rw [he], ?_⟩
  unfold executeSpawns
  rw [he]

/-- Witness for C3: a command format without the placeholder, stale files
everywhere — still nothing is deleted and nothing is spawned. -/
theorem missing_placeholder_rejects_witness :
    (∃ e, (prepareTaskInfos
      ⟨[⟨'x', 4⟩], 2, "run".toList, [], [], [], none, fun _ => true⟩).1 = .error e) ∧
    (prepareTaskInfos
      ⟨[⟨'x', 4⟩], 2, "run".toList, [], [], [], none, fun _ => true⟩).2 = [] ∧
    executeSpawns ⟨[⟨'x', 4⟩], 2, "run".toList, [], [], [], none, fun _ => true⟩ = [] :=
  missing_placeholder_rejects
    ⟨[⟨'x', 4⟩], 2, "run".toList, [], [], [], none, fun _ => true⟩
    (by decide) (by decide)

/-- **C4**: the worker's filesystem-effect trace is exactly: make the temp
dir, write the full result into the private temp file, copy it to the
discoverable output path, and only then create the status marker.
Consequently every prefix of the trace that contains the status-marker write
already contains the completed copy, and every prefix containing the copy
already contains the completed temp write: the marker is a safe proxy for
"output complete". -/
theorem worker_marker_after_copy (scratchDir taskName tempDir : List Char)
    (roi : Roi) (writeOk : Bool) :
    (opTaskWorkerExecute scratchDir taskName tempDir roi writeOk).1 =
      [WorkerEvent.mkTempDir tempDir,
       WorkerEvent.writeTempResult (pathJoin tempDir (roiDumps roi ++ ".h5".toList)),
       WorkerEvent.copyFile (pathJoin tempDir (roiDumps roi ++ ".h5".toList))
         (pathJoin scratchDir (outputFileName taskName roi)),
       WorkerEvent.writeStatusFile (pathJoin scratchDir (statusFileName taskName roi))] ∧
    (∀ npre, (∃ p, WorkerEvent.writeStatusFile p ∈
        (opTaskWorkerExecute scratchDir taskName tempDir roi writeOk).1.take npre) →
      ∃ src dst, WorkerEvent.copyFile src dst ∈
        (opTaskWorkerExecute scratchDir taskName tempDir roi writeOk).1.take npre) ∧
    (∀ npre, (∃ src dst, WorkerEvent.copyFile src dst ∈
        (opTaskWorkerExecute scratchDir taskName tempDir roi writeOk).1.take npre) →
      ∃ p, WorkerEvent.writeTempResult p ∈
        (opTaskWorkerExecute scratchDir taskName tempDir roi writeOk).1.take npre) := by
  refine ⟨rfl, ?_, ?_⟩
  · intro npre h
    rcases npre with _ | _ | _ | _ | n
    · rcases h with ⟨p, hp⟩
      simp [opTaskWorkerExecute] at hp
    · rcases h with ⟨p, hp⟩
      simp [opTaskWorkerExecute, List.take] at hp
    · rcases h with ⟨p, hp⟩
      simp [opTaskWorkerExecute, List.take] at hp
    · rcases h with ⟨p, hp⟩
      simp [opTaskWorkerExecute, List.take] at hp
    · refine ⟨pathJoin tempDir (roiDumps roi ++ ".h5".toList),
        pathJoin scratchDir (outputFileName taskName roi), ?_⟩
      simp [opTaskWorkerExecute, List.take]
  · intro npre h
    rcases npre with _ | _ | _ | n
    · rcases h with ⟨src, dst, hp⟩
      simp [opTaskWorkerExecute] at hp
    · rcases h with ⟨src, dst, hp⟩
      simp [opTaskWorkerExecute, List.take] at hp
    · rcases h with ⟨src, dst, hp⟩
      simp [opTaskWorkerExecute, List.take] at hp
    · refine ⟨pathJoin tempDir (roiDumps roi ++ ".h5".toList), ?_⟩
      simp [opTaskWorkerExecute, List.take]

end ClusterOps
